import Mathlib

/-!
# Roomy SDK entity-component layer: a shallow embedding

This file embeds the core of the Roomy SDK (`src/index.ts`, `src/components.ts`):
the static component catalog, the entity-wrapper hierarchy with its
always-succeeding `cast`, sidebar-item type discrimination, the admin-list
union helper, the generic `EntityList` accessor, and the reaction codec.

The underlying document store (the Leaf SDK: entities, `has` / `getOrInit` /
`init` / `delete`, Loro list and map containers) is an external collaborator of
the repository; it is modelled here from the spec's stated collaborator
contract: an entity is a mapping from `name:version` component identifiers to
container values, `getOrInit` returns the existing component or materializes
the schema's declared default, and containers are ordered lists (movable or
not), string-keyed maps, rich text, or zero-payload markers.

All state-passing is explicit: a TypeScript method that mutates an entity
becomes a Lean function returning the updated `Entity`, and a method that can
throw returns the raised message in an `Option String` / `Except String`
alongside the post-state.
-/

/-- A component instance's payload: one of the container shapes offered by the
document store (modelled from the spec: ordered reference list — movable or
immovable, string-keyed map, rich text, or zero-payload marker).  The `movable`
flag records whether the list container is the reorderable `LoroMovableList`
variant or the plain `LoroList` variant. -/
inductive ComponentValue where
  | list (movable : Bool) (items : List String)
  | map (entries : List (String × String))
  | text (body : String)
  | marker
  deriving DecidableEq

/-- A component schema descriptor, produced by `defComponent(id, container,
init?)`: the `name:version` identifier string and the default value the store
materializes on first access (the container's empty value, with the optional
initializer applied). -/
structure ComponentDef where
  id : String
  dflt : ComponentValue
  deriving DecidableEq

/-- An entity of the document store: an opaque string identity plus the mapping
from component identifiers to component instances (modelled from the spec's
collaborator contract). -/
structure Entity where
  id : String
  components : List (String × ComponentValue)
  deriving DecidableEq

/-- Look up the component stored on `e` under schema `d`'s identifier. -/
def Entity.lookupComp (e : Entity) (d : ComponentDef) : Option ComponentValue :=
  e.components.lookup d.id

/-- `entity.has(def)`: presence of the component (modelled from the spec). -/
def Entity.has (e : Entity) (d : ComponentDef) : Bool :=
  (e.lookupComp d).isSome

/-- `entity.getOrInit(def)`: the existing component if present, otherwise the
schema's default is materialized on the entity and returned (modelled from the
spec's collaborator contract).  Returns the read value and the post-state. -/
def Entity.getOrInit (e : Entity) (d : ComponentDef) : ComponentValue × Entity :=
  match e.lookupComp d with
  | some v => (v, e)
  | none => (d.dflt, ⟨e.id, e.components ++ [(d.id, d.dflt)]⟩)

/-- Replace the binding for key `k` in an association list, in place; append it
when absent. -/
def setAssoc (l : List (String × ComponentValue)) (k : String) (v : ComponentValue) :
    List (String × ComponentValue) :=
  match l with
  | [] => [(k, v)]
  | (k0, v0) :: rest => if k0 = k then (k, v) :: rest else (k0, v0) :: setAssoc rest k v

/-- Write component value `v` under schema `d` on entity `e` (the post-state of
mutating the container returned by `getOrInit`). -/
def Entity.setComp (e : Entity) (d : ComponentDef) (v : ComponentValue) : Entity :=
  ⟨e.id, setAssoc e.components d.id v⟩

/-- `entity.init(def)`: idempotent initialization (modelled from the spec). -/
def Entity.initComp (e : Entity) (d : ComponentDef) : Entity :=
  (e.getOrInit d).2

/-- `entity.delete(def)`: idempotent removal of the component (modelled from
the spec). -/
def Entity.deleteComp (e : Entity) (d : ComponentDef) : Entity :=
  ⟨e.id, e.components.filter (fun p => !(p.1 == d.id))⟩

/-- The item sequence of a list-shaped component value.  Per the spec's shape
invariant a component materialized from a list schema is always list-shaped;
the non-list fallback is never exercised under that invariant. -/
def ComponentValue.asList : ComponentValue → List String
  | .list _ xs => xs
  | _ => []

/-- Append one item to a list-shaped component value, preserving its
movability (a `push` on the underlying Loro list container). -/
def ComponentValue.listPush : ComponentValue → String → ComponentValue
  | .list m xs, x => .list m (xs ++ [x])
  | v, _ => v

namespace Components

/-! The static component catalog of `src/components.ts`: each `defComponent`
call, with its literal `name:version` identifier and its default value (the
container's empty value with the declared initializer applied). -/

/-- `BasicMeta`: display-name map, initializer sets `name` to `"Unnamed"`. -/
def BasicMeta : ComponentDef :=
  ⟨"name:01JPE9PEBF47QJR6THNW4J4JXJ", .map [("name", "Unnamed")]⟩

/-- `ReplyTo`: map holding the replied-to entity ID. -/
def ReplyTo : ComponentDef :=
  ⟨"replyTo:01JPFR9RXR4BECAMCEH0M8XPQY", .map []⟩

/-- `SoftDeleted`: zero-payload tombstone marker. -/
def SoftDeleted : ComponentDef :=
  ⟨"softDeleted:01JPFQK63H9W2RA8Q5GQ19S1DY", .marker⟩

/-- `ImageUri`: image metadata map, initializer sets `uri`. -/
def ImageUri : ComponentDef :=
  ⟨"imageUri:01JPFRMSYWE2G0JHMS7RW478G3", .map [("uri", "example:image")]⟩

/-- `Images`: movable list of image entity IDs.  Note the identifier string in
the source reads `spaces:…`, identical to `Spaces` below. -/
def Images : ComponentDef :=
  ⟨"spaces:01JPE97AYAJSDP0NRAH79S9792", .list true []⟩

/-- `Spaces`: movable list of space entity IDs. -/
def Spaces : ComponentDef :=
  ⟨"spaces:01JPE97AYAJSDP0NRAH79S9792", .list true []⟩

/-- `Collection`: movable list of collected entity IDs. -/
def Collection : ComponentDef :=
  ⟨"collection:01JPEB6RBRYDG7CJWX74RK324E", .list true []⟩

/-- `Channels`: movable list of channel entity IDs. -/
def Channels : ComponentDef :=
  ⟨"channels:01JPFMTA2QAFY2D3CV1C0YBZQ9", .list true []⟩

/-- `Threads`: movable list of thread entity IDs. -/
def Threads : ComponentDef :=
  ⟨"threads:01JPEB05824ZR836QMV6B3E69F", .list true []⟩

/-- `Messages`: movable list of message entity IDs. -/
def Messages : ComponentDef :=
  ⟨"messages:01JPEAH76WBQ4XYZQZT7MQT19V", .list true []⟩

/-- `AuthorUris`: movable list of author identifiers. -/
def AuthorUris : ComponentDef :=
  ⟨"authorUris:01JPEBV8TJ8YCXXYD156NJSR5Y", .list true []⟩

/-- `Content`: rich-text body. -/
def Content : ComponentDef :=
  ⟨"content:01JPEBQARGPD0BQV7DYGC9TR5Z", .text ""⟩

/-- `SpaceSidebarNavigation`: movable list of sidebar item entity IDs. -/
def SpaceSidebarNavigation : ComponentDef :=
  ⟨"spaceSidebarNavigation:01JPFMBD0XT7B922PSQ7KQ99EW", .list true []⟩

/-- `Admins`: movable list of admin identifiers. -/
def Admins : ComponentDef :=
  ⟨"admins:01JPRKX4FVJ7GYV9AHRN12SSB2", .list true []⟩

/-- `Reactions`: plain (immovable) list of packed reaction strings. -/
def Reactions : ComponentDef :=
  ⟨"reactions:01JPFTQACDW0KM3857XWER87RR", .list false []⟩

/-- `ChannelAnnouncement`: announcement-kind map, initializer sets `kind`. -/
def ChannelAnnouncement : ComponentDef :=
  ⟨"channelAnnouncement:01JPFTN90MGBMBCMCNJ4V65YF2", .map [("kind", "unknown")]⟩

/-- The full static catalog, in source order. -/
def catalog : List ComponentDef :=
  [BasicMeta, ReplyTo, SoftDeleted, ImageUri, Images, Spaces, Collection, Channels,
   Threads, Messages, AuthorUris, Content, SpaceSidebarNavigation, Admins, Reactions,
   ChannelAnnouncement]

end Components

/-- The Leaf `Peer` (the document-store connection).  Opaque to this layer:
the SDK only stores and forwards it, so it is modelled as an abstract token. -/
structure Peer where
  token : Nat
  deriving DecidableEq

/-- The concrete wrapper classes of `src/index.ts` with a two-argument
`(peer, entity)` constructor — the `EntityConstructor` kinds `cast` ranges
over. -/
inductive WrapperKind where
  | entityWrapper
  | deletable
  | administered
  | namedEntity
  | roomy
  | space
  | sidebarItem
  | category
  | channel
  | timelineItem
  | reactionsView
  | message
  | announcement
  | image
  deriving DecidableEq

/-- An `EntityWrapper`: a non-owning view pairing the connection with one
entity.  Every constructor in the hierarchy simply stores the two references,
so a wrapper's runtime state is its class (`kind`), its peer and its entity. -/
structure EntityWrapper where
  kind : WrapperKind
  peer : Peer
  entity : Entity
  deriving DecidableEq

/-- `EntityWrapper.cast(constructor)`: builds a new wrapper of the target kind
over the same peer and entity — `new constructor(this.peer, this.entity)`.
No validation, no entity mutation; a total function, so it never raises. -/
def EntityWrapper.cast (w : EntityWrapper) (k : WrapperKind) : EntityWrapper :=
  ⟨k, w.peer, w.entity⟩

/-- `EntityWrapper.id`: the string entity ID, `this.entity.id.toString()`. -/
def EntityWrapper.idStr (w : EntityWrapper) : String :=
  w.entity.id

/-- `SidebarItem.type`: `"category"` if the entity has the `Messages`
component, else `"channel"` if it has the `Channels` component, else the
thrown string `"Unknown sidebar item type"`. -/
def SidebarItem.typeOf (e : Entity) : Except String String :=
  if e.has Components.Messages then .ok "category"
  else if e.has Components.Channels then .ok "channel"
  else .error "Unknown sidebar item type"

/-- `SidebarItem.asChannel()`: evaluates `this.type` (whose fault propagates),
then returns `this.cast(Channel)` when it reads `"channel"` and `undefined`
otherwise. -/
def SidebarItem.asChannel (w : EntityWrapper) : Except String (Option EntityWrapper) :=
  match SidebarItem.typeOf w.entity with
  | .error msg => .error msg
  | .ok t => if t = "channel" then .ok (some (w.cast .channel)) else .ok none

/-- `SidebarItem.asCategory()`: evaluates `this.type` (whose fault propagates),
then returns `this.cast(Category)` when it reads `"category"` and `undefined`
otherwise. -/
def SidebarItem.asCategory (w : EntityWrapper) : Except String (Option EntityWrapper) :=
  match SidebarItem.typeOf w.entity with
  | .error msg => .error msg
  | .ok t => if t = "category" then .ok (some (w.cast .category)) else .ok none

/-- `Administered.appendAdminsFrom(other)` on the underlying admin lists:
`self` is both the list being extended and the `currentAdmins` snapshot taken
before the loop; each admin of `other` is pushed unless it occurs in that
(fixed) snapshot. -/
def Administered.appendAdminsFrom (self other : List String) : List String :=
  other.foldl (fun acc admin => if self.contains admin then acc else acc ++ [admin]) self

/-- `EntityList.ids()`: `getOrInit` the backing component and return its raw
ID sequence, with the (possibly materialized) post-state entity. -/
def EntityList.ids (e : Entity) (d : ComponentDef) : List String × Entity :=
  let p := e.getOrInit d
  (p.1.asList, p.2)

/-- `EntityList.items()`: `getOrInit` the backing component and resolve every
contained ID into a wrapper of the list's item kind.  `openF` models
`peer.open` (the document store's open-by-ID, an external collaborator). -/
def EntityList.items (openF : String → Entity) (peer : Peer) (k : WrapperKind)
    (e : Entity) (d : ComponentDef) : List EntityWrapper × Entity :=
  let p := e.getOrInit d
  (p.1.asList.map (fun i => ⟨k, peer, openF i⟩), p.2)

/-- `EntityList.rawList()`: the raw backing container, via `getOrInit`. -/
def EntityList.rawList (e : Entity) (d : ComponentDef) : ComponentValue × Entity :=
  e.getOrInit d

/-- `EntityList.length`: the backing container's length, via `getOrInit`. -/
def EntityList.lengthOf (e : Entity) (d : ComponentDef) : Nat × Entity :=
  let p := e.getOrInit d
  (p.1.asList.length, p.2)

/-- `EntityList.push(item)`: append the item's entity ID to the backing list. -/
def EntityList.push (e : Entity) (d : ComponentDef) (item : EntityWrapper) : Entity :=
  let p := e.getOrInit d
  p.2.setComp d (p.1.listPush item.entity.id)

/-- Insert at an index: `take i ++ [x] ++ drop i` (the ordered-list container's
insert, modelled from the spec's container contract). -/
def listInsertAt (xs : List String) (i : Nat) (x : String) : List String :=
  xs.take i ++ [x] ++ xs.drop i

/-- Delete one entry at an index (the container's `delete(idx, 1)`, modelled
from the spec's container contract). -/
def listRemoveAt (xs : List String) (i : Nat) : List String :=
  xs.take i ++ xs.drop (i + 1)

/-- The movable-list `move(from, to)` (modelled from the spec: relocates the
entry originally at `from` to position `to`, preserving containment). -/
def listMove (xs : List String) (fromIdx toIdx : Nat) : List String :=
  match xs.get? fromIdx with
  | none => xs
  | some x => listInsertAt (listRemoveAt xs fromIdx) toIdx x

/-- `EntityList.move(itemIdx, newIdx)`: `getOrInit` the backing component,
then reorder if it is the movable variant and otherwise throw
`"Cannot use move function in an immovable list."`.  Returns the raised
message (if any) and the post-state entity. -/
def EntityList.move (e : Entity) (d : ComponentDef) (itemIdx newIdx : Nat) :
    Option String × Entity :=
  let p := e.getOrInit d
  match p.1 with
  | .list true xs => (none, p.2.setComp d (.list true (listMove xs itemIdx newIdx)))
  | _ => (some "Cannot use move function in an immovable list.", p.2)

/-- `EntityList.delete()`: remove the whole backing component. -/
def EntityList.deleteAll (e : Entity) (d : ComponentDef) : Entity :=
  e.deleteComp d

/-- The JS `string.includes(" ")` test used by the reaction codec: whether the
string contains the space delimiter. -/
def containsSpace (s : String) : Bool :=
  s.data.contains ' '

/-- The packed reaction encoding: the template literal `reaction ++ " " ++
authorId`. -/
def Reactions.encode (reaction authorId : String) : String :=
  reaction ++ " " ++ authorId

/-- The membership-guarded push at the heart of `Reactions.add`: push the raw
entry unless an identical entry is already in the list. -/
def Reactions.addToList (list : List String) (raw : String) : List String :=
  if list.contains raw then list else list ++ [raw]

/-- The list a read of the reactions component observes on `e` (absent reads
as the schema default, the empty list). -/
def Reactions.listOn (e : Entity) : List String :=
  ((e.getOrInit Components.Reactions).1).asList

/-- `Reactions.add(reaction, authorId)`: throw if either argument contains a
space (before touching the entity); otherwise `getOrInit` the backing list and
push the encoded entry unless it is already present.  Returns the raised
message (if any) and the post-state entity. -/
def Reactions.add (e : Entity) (reaction authorId : String) : Option String × Entity :=
  if containsSpace reaction || containsSpace authorId then
    (some "Reaction and Author ID must not contain spaces.", e)
  else
    let raw := Reactions.encode reaction authorId
    let p := e.getOrInit Components.Reactions
    if p.1.asList.contains raw then (none, p.2)
    else (none, p.2.setComp Components.Reactions (p.1.listPush raw))

/-- `Reactions.remove(reaction, authorId)`: same validation; delete the first
exact encoded match if present. -/
def Reactions.removeFrom (e : Entity) (reaction authorId : String) :
    Option String × Entity :=
  if containsSpace reaction || containsSpace authorId then
    (some "Reaction and Author ID must not contain spaces.", e)
  else
    let raw := Reactions.encode reaction authorId
    let p := e.getOrInit Components.Reactions
    match (p.1.asList).indexOf? raw with
    | none => (none, p.2)
    | some i =>
      (none, p.2.setComp Components.Reactions (.list false (listRemoveAt p.1.asList i)))

/-- One `Reactions.add` call's effect on the backing list alone: a validation
failure throws before the list is touched, so the list is unchanged; otherwise
the membership-guarded push runs. -/
def Reactions.addStep (list : List String) (reaction authorId : String) : List String :=
  if containsSpace reaction || containsSpace authorId then list
  else Reactions.addToList list (Reactions.encode reaction authorId)

/-- The backing list after a whole sequence of `add(symbol, actor)` calls. -/
def Reactions.applyAdds (list : List String) (ops : List (String × String)) : List String :=
  ops.foldl (fun l p => Reactions.addStep l p.1 p.2) list

/-- A well-formed backing reactions list: pairwise-distinct entries, each the
encoding of a space-free (symbol, actor) pair. -/
def wfReactions (list : List String) : Prop :=
  list.Nodup ∧
    ∀ s ∈ list, ∃ r a, containsSpace r = false ∧ containsSpace a = false ∧
      s = Reactions.encode r a

/-- The JS `raw.split(" ")` on the character list: split at every occurrence
of the single-space separator; consecutive separators yield empty fields and
the empty string yields one empty field. -/
def jsSplitChars : List Char → List (List Char)
  | [] => [[]]
  | c :: rest =>
    let r := jsSplitChars rest
    if c = ' ' then [] :: r
    else
      match r with
      | [] => [[c]]
      | h :: t => (c :: h) :: t

/-- The JS `raw.split(" ")` on strings. -/
def jsSplit (s : String) : List String :=
  (jsSplitChars s.data).map (fun cs => String.mk cs)

/-- The destructuring `const [reaction, user] = raw.split(" ")`: the first
split field (the split of a string is never empty). -/
def Reactions.symbolOf (raw : String) : String :=
  (jsSplit raw).headD ""

/-- The second split field, `undefined` (`none`) when the entry has no
space. -/
def Reactions.actorOf (raw : String) : Option String :=
  (jsSplit raw).get? 1

/-- The property names a plain JS object literal (`{}`) inherits from
`Object.prototype`, each bound to a truthy function/object value: a lookup
`record[key]` on a fresh record with no own properties yields a truthy
inherited value exactly for these keys (part of the JS semantics of the
source, in which `Reactions.all()` builds its `Record<string, Set<string>>`
as a plain object). -/
def jsObjectProtoKeys : List String :=
  ["constructor", "hasOwnProperty", "isPrototypeOf", "propertyIsEnumerable",
   "toLocaleString", "toString", "valueOf", "__defineGetter__", "__defineSetter__",
   "__lookupGetter__", "__lookupSetter__", "__proto__"]

/-- One step of the record-building loop in `Reactions.all()`:
`if (!reactions[reaction]) reactions[reaction] = new Set()` followed by
`reactions[reaction].add(user)`, on the plain-object record.  An own group for
the symbol (which shadows the prototype) is extended set-wise — a duplicate
actor is not re-added.  With no own group, when the symbol is an inherited
`Object.prototype` key the lookup yields the truthy inherited value, the init
guard is skipped, and `.add` on that non-Set value throws a `TypeError` (its
message is engine specific; only the fault is modelled).  Otherwise the lookup
is `undefined` (falsy) and a fresh one-actor group is appended. -/
def Reactions.insertGroup (gs : List (String × List (Option String))) (sym : String)
    (u : Option String) : Except String (List (String × List (Option String))) :=
  match gs with
  | [] =>
    if jsObjectProtoKeys.contains sym then .error "TypeError"
    else .ok [(sym, [u])]
  | (s, us) :: rest =>
    if s = sym then .ok ((s, if us.contains u then us else us ++ [u]) :: rest)
    else (Reactions.insertGroup rest sym u).map (fun t => (s, us) :: t)

/-- `Reactions.all()` on the backing list: decode every packed entry with
`split(" ")` and group the second field by the first into a symbol-keyed
record of actor sets; the first entry whose symbol collides with an inherited
`Object.prototype` key of the plain-object record aborts the loop with the
thrown `TypeError`. -/
def Reactions.allList (list : List String) :
    Except String (List (String × List (Option String))) :=
  list.foldlM (fun gs raw => Reactions.insertGroup gs (Reactions.symbolOf raw)
    (Reactions.actorOf raw)) []

/-- `Reactions.all()` on an entity: `getOrInit` the backing component and
decode its list; returns the grouping (or the propagated `TypeError`) and the
post-state entity. -/
def Reactions.allOn (e : Entity) :
    Except String (List (String × List (Option String))) × Entity :=
  let p := e.getOrInit Components.Reactions
  (Reactions.allList p.1.asList, p.2)

/-- Membership of actor `u` in symbol `s`'s group of a decoded reaction
record. -/
def Reactions.memGroup (gs : List (String × List (Option String))) (s : String)
    (u : Option String) : Prop :=
  ∃ us, gs.lookup s = some us ∧ u ∈ us

/-- A decoded record whose own keys all avoid the inherited
`Object.prototype` names — the invariant `Reactions.all()`'s loop maintains,
since a fresh group is only ever created for a symbol whose record lookup was
falsy. -/
def Reactions.keysNonProto (gs : List (String × List (Option String))) : Prop :=
  ∀ s us, gs.lookup s = some us → jsObjectProtoKeys.contains s = false

/-- An entity with no components at all (a freshly created, never-written
entity), viewed as a sidebar item. -/
def emptySidebarEntity : Entity :=
  ⟨"entity:empty", []⟩

/-- A sidebar-item wrapper over `emptySidebarEntity`. -/
def emptySidebarItem : EntityWrapper :=
  ⟨.sidebarItem, ⟨0⟩, emptySidebarEntity⟩

/-- A fresh entity used by concrete witnesses. -/
def freshEntity : Entity :=
  ⟨"entity:fresh", []⟩

/-! ## Store lemmas -/

theorem lookup_setAssoc_self (l : List (String × ComponentValue)) (k : String)
    (v : ComponentValue) : (setAssoc l k v).lookup k = some v := by
  induction l with
  | nil => simp [setAssoc, List.lookup]
  | cons p rest ih =>
    obtain ⟨k0, v0⟩ := p
    by_cases h : k0 = k
    · simp [setAssoc, h, List.lookup]
    · have hb : (k == k0) = false := by simp [Ne.symm h]
      simp [setAssoc, h, List.lookup, hb, ih]

theorem lookupComp_setComp (e : Entity) (d : ComponentDef) (v : ComponentValue) :
    (e.setComp d v).lookupComp d = some v :=
  lookup_setAssoc_self e.components d.id v

theorem lookup_append_left_none (l1 l2 : List (String × ComponentValue)) (k : String)
    (h : l1.lookup k = none) : (l1 ++ l2).lookup k = l2.lookup k := by
  induction l1 with
  | nil => simp
  | cons p rest ih =>
    obtain ⟨k0, v0⟩ := p
    by_cases hk : k = k0
    · simp [List.lookup, hk] at h
    · have hb : (k == k0) = false := by simp [hk]
      simp only [List.lookup, hb] at h ⊢
      exact ih h

theorem lookupComp_getOrInit (e : Entity) (d : ComponentDef) :
    ((e.getOrInit d).2).lookupComp d = some ((e.getOrInit d).1) := by
  rcases h : e.lookupComp d with _ | v
  · simp only [Entity.getOrInit, h]
    unfold Entity.lookupComp at h ⊢
    rw [lookup_append_left_none _ _ _ h]
    simp [List.lookup]
  · simp [Entity.getOrInit, h]

theorem has_getOrInit (e : Entity) (d : ComponentDef) :
    ((e.getOrInit d).2).has d = true := by
  simp [Entity.has, lookupComp_getOrInit]

theorem getOrInit_of_has (e : Entity) (d : ComponentDef) (h : e.has d = true) :
    (e.getOrInit d).2 = e := by
  rcases hl : e.lookupComp d with _ | v
  · simp [Entity.has, hl] at h
  · simp [Entity.getOrInit, hl]

theorem getOrInit_of_absent (e : Entity) (d : ComponentDef) (h : e.has d = false) :
    (e.getOrInit d).1 = d.dflt ∧
      (e.getOrInit d).2.components = e.components ++ [(d.id, d.dflt)] := by
  rcases hl : e.lookupComp d with _ | v
  · simp [Entity.getOrInit, hl]
  · simp [Entity.has, hl] at h

theorem getOrInit_getOrInit (e : Entity) (d : ComponentDef) :
    ((e.getOrInit d).2).getOrInit d = ((e.getOrInit d).1, (e.getOrInit d).2) := by
  have h := lookupComp_getOrInit e d
  rcases hp : e.getOrInit d with ⟨a, b⟩
  rw [hp] at h
  simp [Entity.getOrInit, h]

theorem getOrInit_setComp (e : Entity) (d : ComponentDef) (v : ComponentValue) :
    (e.setComp d v).getOrInit d = (v, e.setComp d v) := by
  simp [Entity.getOrInit, lookupComp_setComp]

/-! ## Codec lemmas -/

theorem foldl_guard_push (self : List String) (B : List String) (acc : List String) :
    B.foldl (fun acc admin => if self.contains admin then acc else acc ++ [admin]) acc
      = acc ++ B.filter (fun x => !(self.contains x)) := by
  induction B generalizing acc with
  | nil => simp
  | cons b bs ih =>
    simp only [List.foldl_cons, List.filter_cons]
    by_cases h : self.contains b
    · simp only [h]
      rw [ih]
      simp
    · simp only [Bool.not_eq_true] at h
      simp only [h]
      rw [ih]
      simp

theorem wfReactions_addStep (l : List String) (r a : String) (h : wfReactions l) :
    wfReactions (Reactions.addStep l r a) := by
  unfold Reactions.addStep
  by_cases hv : (containsSpace r || containsSpace a) = true
  · simpa [hv] using h
  · simp only [hv, Bool.false_eq_true, if_false]
    unfold Reactions.addToList
    by_cases hm : Reactions.encode r a ∈ l
    · simpa [hm] using h
    · simp only [Bool.or_eq_true, not_or, Bool.not_eq_true] at hv
      obtain ⟨hnd, hsh⟩ := h
      have hb : l.contains (Reactions.encode r a) = false := by simpa using hm
      simp only [hb, Bool.false_eq_true, if_false]
      constructor
      · simp [List.nodup_append, hnd]
        intro hmem
        exact hm hmem
      · intro s hs
        rcases List.mem_append.mp hs with hs | hs
        · exact hsh s hs
        · simp at hs
          subst hs
          exact ⟨r, a, hv.1, hv.2, rfl⟩

theorem wfReactions_applyAdds (l : List String) (ops : List (String × String))
    (h : wfReactions l) : wfReactions (Reactions.applyAdds l ops) := by
  induction ops generalizing l with
  | nil => simpa [Reactions.applyAdds] using h
  | cons op ops ih =>
    simp only [Reactions.applyAdds, List.foldl_cons]
    exact ih _ (wfReactions_addStep _ _ _ h)

theorem insertGroup_ok (gs : List (String × List (Option String))) (sym : String)
    (u0 : Option String) (h : jsObjectProtoKeys.contains sym = false) :
    ∃ gs1, Reactions.insertGroup gs sym u0 = .ok gs1 ∧
      ∀ s, gs1.lookup s =
        if s = sym then
          some (match gs.lookup sym with
            | none => [u0]
            | some us => if us.contains u0 then us else us ++ [u0])
        else gs.lookup s := by
  have h2 : sym ∉ jsObjectProtoKeys := by simpa using h
  induction gs with
  | nil =>
    refine ⟨[(sym, [u0])], by simp [Reactions.insertGroup, h2], ?_⟩
    intro s
    by_cases hs : s = sym
    · simp [List.lookup, hs]
    · have hb : (s == sym) = false := by simp [hs]
      simp [List.lookup, hs, hb]
  | cons g rest ih =>
    obtain ⟨s1, us1⟩ := g
    by_cases h1 : s1 = sym
    · subst h1
      refine ⟨(s1, if us1.contains u0 then us1 else us1 ++ [u0]) :: rest,
        by simp [Reactions.insertGroup], ?_⟩
      intro s
      by_cases hs : s = s1
      · subst hs
        simp [List.lookup]
      · have hb : (s == s1) = false := by simp [hs]
        simp [List.lookup, hs, hb]
    · obtain ⟨gs1, hok, hlk⟩ := ih
      have hb1 : (sym == s1) = false := by simp [Ne.symm h1]
      refine ⟨(s1, us1) :: gs1, by simp [Reactions.insertGroup, h1, hok, Except.map], ?_⟩
      intro s
      by_cases hs : s = s1
      · have hsym : ¬ s = sym := by rw [hs]; exact h1
        have hb : (s == s1) = true := by simp [hs]
        simp [List.lookup, hb, hb1, hsym]
      · have hb : (s == s1) = false := by simp [hs]
        simp only [List.lookup, hb, hb1]
        rw [hlk s]

theorem memGroup_of_formula (gs gs1 : List (String × List (Option String))) (sym : String)
    (u0 : Option String)
    (hlk : ∀ s, gs1.lookup s =
      if s = sym then
        some (match gs.lookup sym with
          | none => [u0]
          | some us => if us.contains u0 then us else us ++ [u0])
      else gs.lookup s)
    (s : String) (u : Option String) :
    Reactions.memGroup gs1 s u ↔ (s = sym ∧ u = u0) ∨ Reactions.memGroup gs s u := by
  unfold Reactions.memGroup
  rw [hlk s]
  by_cases h : s = sym
  · subst h
    simp only [if_pos rfl]
    rcases hl : gs.lookup s with _ | us
    · simp
    · by_cases hc : u0 ∈ us
      · simp only [Option.some.injEq, exists_eq_left']
        simp [hc]
        rintro rfl
        exact hc
      · simp only [Option.some.injEq, exists_eq_left']
        simp [hc, or_comm]
  · simp [h]

theorem keysNonProto_of_formula (gs gs1 : List (String × List (Option String)))
    (sym : String) (u0 : Option String)
    (hns : jsObjectProtoKeys.contains sym = false)
    (hk : Reactions.keysNonProto gs)
    (hlk : ∀ s, gs1.lookup s =
      if s = sym then
        some (match gs.lookup sym with
          | none => [u0]
          | some us => if us.contains u0 then us else us ++ [u0])
      else gs.lookup s) :
    Reactions.keysNonProto gs1 := by
  intro s us hs
  rw [hlk s] at hs
  by_cases hssym : s = sym
  · subst hssym
    exact hns
  · rw [if_neg hssym] at hs
    exact hk s us hs

theorem insertGroup_proto_error (gs : List (String × List (Option String))) (sym : String)
    (u0 : Option String) (hp : jsObjectProtoKeys.contains sym = true)
    (hk : Reactions.keysNonProto gs) :
    Reactions.insertGroup gs sym u0 = .error "TypeError" := by
  have hp2 : sym ∈ jsObjectProtoKeys := by simpa using hp
  induction gs with
  | nil => simp [Reactions.insertGroup, hp2]
  | cons g rest ih =>
    obtain ⟨s1, us1⟩ := g
    have h1 : ¬ s1 = sym := by
      intro hc
      subst hc
      have hf := hk s1 us1 (by simp [List.lookup])
      rw [hf] at hp
      exact Bool.false_ne_true hp
    have hkrest : Reactions.keysNonProto rest := by
      intro s us hs
      by_cases hss : s = s1
      · subst hss
        exact hk s us1 (by simp [List.lookup])
      · have hb : (s == s1) = false := by simp [hss]
        exact hk s us (by simp [List.lookup, hb, hs])
    simp [Reactions.insertGroup, h1, ih hkrest, Except.map]

theorem allFold_ok (L : List String) :
    ∀ gs, (∀ raw ∈ L, jsObjectProtoKeys.contains (Reactions.symbolOf raw) = false) →
      Reactions.keysNonProto gs →
      ∃ gs1,
        (L.foldlM (fun gs raw => Reactions.insertGroup gs (Reactions.symbolOf raw)
          (Reactions.actorOf raw)) gs) = .ok gs1 ∧
        Reactions.keysNonProto gs1 ∧
        ∀ s u, Reactions.memGroup gs1 s u ↔
          Reactions.memGroup gs s u ∨
            ∃ raw, raw ∈ L ∧ Reactions.symbolOf raw = s ∧ Reactions.actorOf raw = u := by
  induction L with
  | nil =>
    intro gs h hk
    exact ⟨gs, rfl, hk, by simp⟩
  | cons raw L ih =>
    intro gs h hk
    obtain ⟨gsm, hok, hlk⟩ := insertGroup_ok gs (Reactions.symbolOf raw)
      (Reactions.actorOf raw) (h raw (List.mem_cons_self _ _))
    have hkm : Reactions.keysNonProto gsm :=
      keysNonProto_of_formula gs gsm _ _ (h raw (List.mem_cons_self _ _)) hk hlk
    obtain ⟨gs1, hok1, hk1, hchar⟩ := ih gsm
      (fun r hr => h r (List.mem_cons_of_mem _ hr)) hkm
    refine ⟨gs1, ?_, hk1, ?_⟩
    · rw [List.foldlM_cons, hok]
      exact hok1
    · intro s u
      rw [hchar s u, memGroup_of_formula gs gsm _ _ hlk s u]
      constructor
      · rintro (⟨⟨hs, hu⟩ | hm⟩ | ⟨raw1, hraw1, hs1, hu1⟩)
        · exact Or.inr ⟨raw, List.mem_cons_self _ _, hs.symm, hu.symm⟩
        · exact Or.inl hm
        · exact Or.inr ⟨raw1, List.mem_cons_of_mem _ hraw1, hs1, hu1⟩
      · rintro (hm | ⟨raw1, hraw1, hs1, hu1⟩)
        · exact Or.inl (Or.inr hm)
        · rcases List.mem_cons.mp hraw1 with hEq | hmem
          · subst hEq
            exact Or.inl (Or.inl ⟨hs1.symm, hu1.symm⟩)
          · exact Or.inr ⟨raw1, hmem, hs1, hu1⟩

theorem allFold_proto_error (L : List String) :
    ∀ gs, (∃ raw, raw ∈ L ∧ jsObjectProtoKeys.contains (Reactions.symbolOf raw) = true) →
      Reactions.keysNonProto gs →
      (L.foldlM (fun gs raw => Reactions.insertGroup gs (Reactions.symbolOf raw)
        (Reactions.actorOf raw)) gs) = .error "TypeError" := by
  induction L with
  | nil =>
    rintro gs ⟨raw, hm, -⟩ -
    exact absurd hm (List.not_mem_nil raw)
  | cons raw L ih =>
    rintro gs ⟨raw1, hm, hp⟩ hk
    by_cases hr : jsObjectProtoKeys.contains (Reactions.symbolOf raw) = true
    · have herr := insertGroup_proto_error gs (Reactions.symbolOf raw)
        (Reactions.actorOf raw) hr hk
      rw [List.foldlM_cons, herr]
      rfl
    · have hfr : jsObjectProtoKeys.contains (Reactions.symbolOf raw) = false := by
        simpa using hr
      obtain ⟨gsm, hok, hlk⟩ := insertGroup_ok gs (Reactions.symbolOf raw)
        (Reactions.actorOf raw) hfr
      have hkm : Reactions.keysNonProto gsm :=
        keysNonProto_of_formula gs gsm _ _ hfr hk hlk
      rcases List.mem_cons.mp hm with hEq | hm2
      · subst hEq
        exact absurd hp hr
      · have htail := ih gsm ⟨raw1, hm2, hp⟩ hkm
        rw [List.foldlM_cons, hok]
        exact htail

/-! ## Claims -/

/-- C1: for every entity wrapper `w` (over any entity and any connection) and
every wrapper kind `k`, `w.cast(k)` is total (it never raises), performs no
validation or mutation of the entity — the new wrapper holds the same entity
and peer references — and preserves entity identity: `w.cast(k).id = w.id`. -/
theorem cast_total_preserves_identity (w : EntityWrapper) (k : WrapperKind) :
    (w.cast k).idStr = w.idStr ∧ (w.cast k).entity = w.entity ∧
      (w.cast k).peer = w.peer ∧ (w.cast k).kind = k :=
  ⟨rfl, rfl, rfl, rfl⟩

/-- C2 (code bug): the static catalog does *not* assign pairwise-distinct
`name:version` identifiers — the `Images` and `Spaces` schemas carry the
identical identifier string, so the two catalog entries alias the same stored
component on any entity. -/
theorem images_spaces_identifier_collision :
    Components.Images.id = Components.Spaces.id ∧
      ¬ (Components.catalog.map ComponentDef.id).Nodup := by
  constructor
  · rfl
  · decide

/-- C3: `Reactions.add(symbol, actor)` raises exactly when `symbol` or `actor`
contains a space character, and on that failure the entity — in particular its
backing reactions list — is left completely unchanged. -/
theorem reactions_add_validation (e : Entity) (r a : String) :
    ((Reactions.add e r a).1.isSome = (containsSpace r || containsSpace a)) ∧
      ((containsSpace r || containsSpace a) = true → (Reactions.add e r a).2 = e) := by
  by_cases h : (containsSpace r || containsSpace a) = true
  · simp [Reactions.add, h]
  · simp only [Bool.not_eq_true] at h
    refine ⟨?_, by simp [h]⟩
    rw [h]
    simp only [Reactions.add, h, Bool.false_eq_true, if_false]
    split <;> rfl

/-- C5: `SidebarItem.type` returns `"category"` when the entity has the
`Messages` component, otherwise `"channel"` when it has the `Channels`
component, and otherwise raises `"Unknown sidebar item type"`; the result is a
function of component presence alone (no stored tag). -/
theorem sidebar_type_by_presence (e : Entity) :
    (e.has Components.Messages = true → SidebarItem.typeOf e = .ok "category") ∧
      (e.has Components.Messages = false → e.has Components.Channels = true →
        SidebarItem.typeOf e = .ok "channel") ∧
      (e.has Components.Messages = false → e.has Components.Channels = false →
        SidebarItem.typeOf e = .error "Unknown sidebar item type") ∧
      (∀ e2 : Entity, e.has Components.Messages = e2.has Components.Messages →
        e.has Components.Channels = e2.has Components.Channels →
        SidebarItem.typeOf e = SidebarItem.typeOf e2) := by
  refine ⟨?_, ?_, ?_, ?_⟩
  · intro h
    simp [SidebarItem.typeOf, h]
  · intro h1 h2
    simp [SidebarItem.typeOf, h1, h2]
  · intro h1 h2
    simp [SidebarItem.typeOf, h1, h2]
  · intro e2 h1 h2
    unfold SidebarItem.typeOf
    rw [h1, h2]

/-- C6 counterexample: on a sidebar item whose entity has neither the
`Messages` nor the `Channels` component, `asChannel()` and `asCategory()` do
*not* return an empty result — the `this.type` read inside them throws, and
the `"Unknown sidebar item type"` fault propagates out of both. -/
theorem as_views_raise_on_untyped_item :
    SidebarItem.asChannel emptySidebarItem = .error "Unknown sidebar item type" ∧
      SidebarItem.asCategory emptySidebarItem = .error "Unknown sidebar item type" :=
  ⟨rfl, rfl⟩

/-- C6 amended: for every sidebar item whose entity has at least one of the
`Messages` / `Channels` components, `asChannel()` and `asCategory()` never
raise, and the one whose kind does not match the discriminant returns an empty
result (`undefined`) instead of casting; when the entity has neither
component, both calls propagate the `"Unknown sidebar item type"` fault. -/
theorem as_views_on_mismatch (w : EntityWrapper) :
    (w.entity.has Components.Messages = true →
      SidebarItem.asChannel w = .ok none ∧
        SidebarItem.asCategory w = .ok (some (w.cast .category))) ∧
      (w.entity.has Components.Messages = false →
        w.entity.has Components.Channels = true →
        SidebarItem.asChannel w = .ok (some (w.cast .channel)) ∧
          SidebarItem.asCategory w = .ok none) ∧
      (w.entity.has Components.Messages = false →
        w.entity.has Components.Channels = false →
        SidebarItem.asChannel w = .error "Unknown sidebar item type" ∧
          SidebarItem.asCategory w = .error "Unknown sidebar item type") := by
  refine ⟨?_, ?_, ?_⟩
  · intro h
    constructor <;> simp [SidebarItem.asChannel, SidebarItem.asCategory, SidebarItem.typeOf, h]
  · intro h1 h2
    constructor <;>
      simp [SidebarItem.asChannel, SidebarItem.asCategory, SidebarItem.typeOf, h1, h2]
  · intro h1 h2
    constructor <;>
      simp [SidebarItem.asChannel, SidebarItem.asCategory, SidebarItem.typeOf, h1, h2]

/-- C7 counterexample: `appendAdminsFrom` checks membership only against the
snapshot of the target's admins taken before the loop, so a repeated
identifier in the source that is absent from the target is appended once per
occurrence — with `A = []` and `B = ["z", "z"]` the result is `["z", "z"]`,
not the claimed `["z"]` (each new identifier exactly once). -/
theorem append_admins_duplicate_kept :
    Administered.appendAdminsFrom [] ["z", "z"] = ["z", "z"] ∧
      Administered.appendAdminsFrom [] ["z", "z"] ≠ ["z"] := by
  constructor
  · rfl
  · decide

/-- C7 amended: `A.appendAdminsFrom(B)` yields A's prior list in its original
order, followed by exactly those entries of B's list that are not present in
A's prior list, in B's order — once per occurrence in B (duplicates inside B
are not collapsed against each other). -/
theorem append_admins_spec (A B : List String) :
    Administered.appendAdminsFrom A B = A ++ B.filter (fun x => !(A.contains x)) :=
  foldl_guard_push A B A

/-- C8 counterexample: `all()` destructures `raw.split(" ")` into its first
*two* fields, so for the entry `"sym act or"` the reported actor is `"act"`
(the second space-separated field), not the claimed full suffix `"act or"`
after the first space. -/
theorem all_truncates_multiword_actor :
    Reactions.allList ["sym act or"] = .ok [("sym", [some "act"])] ∧
      some "act" ≠ some "act or" := by
  constructor
  · rfl
  · decide

/-- C8 amended: `all()` decodes each entry by splitting on every space and
keeping the first two fields — the symbol is the text before the first space
and the reported actor is the second field (`undefined` when the entry has no
space).  When every decoded symbol avoids the inherited `Object.prototype`
keys of the plain-object record, `all()` returns the grouping of actors by
symbol: `u` is recorded under symbol `s` exactly when some entry decodes to
the pair `(s, u)`.  When some entry's symbol is such an inherited key, the
record lookup yields the truthy inherited value, the init guard is skipped,
and `all()` throws a `TypeError` instead of returning a mapping. -/
theorem all_groups_or_proto_crash (L : List String) (s : String) (u : Option String) :
    ((∀ raw ∈ L, Reactions.symbolOf raw ∉ jsObjectProtoKeys) →
      ∃ gs, Reactions.allList L = .ok gs ∧
        (Reactions.memGroup gs s u ↔
          ∃ raw, raw ∈ L ∧ Reactions.symbolOf raw = s ∧ Reactions.actorOf raw = u)) ∧
      ((∃ raw, raw ∈ L ∧ Reactions.symbolOf raw ∈ jsObjectProtoKeys) →
        Reactions.allList L = .error "TypeError") := by
  constructor
  · intro h
    obtain ⟨gs1, hok, -, hchar⟩ := allFold_ok L []
      (fun raw hr => by simpa using h raw hr)
      (fun s1 us hs => by simp [List.lookup] at hs)
    refine ⟨gs1, hok, ?_⟩
    rw [hchar s u]
    simp [Reactions.memGroup]
  · rintro ⟨raw, hm, hp⟩
    exact allFold_proto_error L [] ⟨raw, hm, by simpa using hp⟩
      (fun s1 us hs => by simp [List.lookup] at hs)

/-- C9: `EntityList.move` on a backing container that materializes as the
non-reorderable list variant raises
`"Cannot use move function in an immovable list."` and leaves the backing
list's contents unchanged (a subsequent read sees the same value); on the
reorderable variant `move` does not take the fault branch. -/
theorem move_immovable_faults (e : Entity) (d : ComponentDef) (i j : Nat) :
    (∀ xs, (e.getOrInit d).1 = ComponentValue.list false xs →
      EntityList.move e d i j =
        (some "Cannot use move function in an immovable list.", (e.getOrInit d).2) ∧
        ((EntityList.move e d i j).2.getOrInit d).1 = ComponentValue.list false xs) ∧
      (∀ xs, (e.getOrInit d).1 = ComponentValue.list true xs →
        (EntityList.move e d i j).1 = none) := by
  constructor
  · intro xs h
    have hmv : EntityList.move e d i j =
        (some "Cannot use move function in an immovable list.", (e.getOrInit d).2) := by
      simp only [EntityList.move]
      rw [h]
    refine ⟨hmv, ?_⟩
    rw [hmv]
    rw [getOrInit_getOrInit]
    exact h
  · intro xs h
    simp only [EntityList.move]
    rw [h]

/-- C10: every `EntityList` read accessor — `ids()`, `items()`, `rawList()`
and `length` — shares one entity effect: it materializes the backing list
component via `getOrInit` when absent (initializing it to the schema default,
the empty list) so that after any such read the entity has the component; a
read on an entity that already has the component leaves it unchanged. -/
theorem entitylist_reads_materialize (e : Entity) (d : ComponentDef)
    (openF : String → Entity) (peer : Peer) (k : WrapperKind) :
    ((EntityList.ids e d).2.has d = true) ∧
      ((EntityList.items openF peer k e d).2 = (EntityList.ids e d).2 ∧
        (EntityList.rawList e d).2 = (EntityList.ids e d).2 ∧
        (EntityList.lengthOf e d).2 = (EntityList.ids e d).2) ∧
      (e.has d = false →
        (EntityList.ids e d).2.components = e.components ++ [(d.id, d.dflt)] ∧
        (EntityList.ids e d).1 = d.dflt.asList) ∧
      (e.has d = true → (EntityList.ids e d).2 = e) ∧
      (d ∈ [Components.Spaces, Components.SpaceSidebarNavigation, Components.Channels,
          Components.Threads, Components.Messages, Components.Images] →
        d.dflt = ComponentValue.list true []) := by
  refine ⟨?_, ⟨rfl, rfl, rfl⟩, ?_, ?_, ?_⟩
  · exact has_getOrInit e d
  · intro h
    exact ⟨(getOrInit_of_absent e d h).2, by rw [EntityList.ids]; simp [(getOrInit_of_absent e d h).1]⟩
  · intro h
    exact getOrInit_of_has e d h
  · intro h
    simp only [List.mem_cons, List.not_mem_nil, or_false] at h
    rcases h with h | h | h | h | h | h
    all_goals subst h
    all_goals rfl

/-- C4: with space-free `symbol` and `actor`, `Reactions.add` appends the
encoded entry `"symbol actor"` to the end of the backing list when no
identical encoded entry is present and is a no-op when one is; consequently a
well-formed backing list stays well-formed across any sequence of `add` calls
and ends with at most one entry per distinct (symbol, actor) pair — at most
one occurrence of each encoded string. -/
theorem reactions_add_unique_append (e : Entity) (r a : String) (L : List String)
    (ops : List (String × String))
    (hr : containsSpace r = false) (ha : containsSpace a = false)
    (hshape : ∃ xs, (e.getOrInit Components.Reactions).1 = ComponentValue.list false xs)
    (hwf : wfReactions L) :
    (Reactions.encode r a ∈ Reactions.listOn e → Reactions.add e r a = (none, e)) ∧
      (Reactions.encode r a ∉ Reactions.listOn e →
        (Reactions.add e r a).1 = none ∧
          Reactions.listOn (Reactions.add e r a).2 =
            Reactions.listOn e ++ [Reactions.encode r a]) ∧
      wfReactions (Reactions.applyAdds L ops) ∧
      (∀ s, (Reactions.applyAdds L ops).count s ≤ 1) := by
  have hval : (containsSpace r || containsSpace a) = false := by simp [hr, ha]
  have hwf2 := wfReactions_applyAdds L ops hwf
  refine ⟨?_, ?_, hwf2, fun s => List.nodup_iff_count_le_one.mp hwf2.1 s⟩
  · intro hm
    have hhas : e.has Components.Reactions = true := by
      rcases hl : e.lookupComp Components.Reactions with _ | v
      · exfalso
        have hnil : Reactions.listOn e = [] := by
          simp [Reactions.listOn, Entity.getOrInit, hl]
          rfl
        rw [hnil] at hm
        exact List.not_mem_nil _ hm
      · simp [Entity.has, hl]
    have he2 : (e.getOrInit Components.Reactions).2 = e :=
      getOrInit_of_has e Components.Reactions hhas
    have hc : ((e.getOrInit Components.Reactions).1.asList).contains
        (Reactions.encode r a) = true := by
      simpa [Reactions.listOn] using hm
    simp only [Reactions.add, hval, Bool.false_eq_true, if_false, hc, if_true, he2]
  · intro hm
    obtain ⟨xs, hx⟩ := hshape
    have hxl : Reactions.listOn e = xs := by
      simp [Reactions.listOn, hx, ComponentValue.asList]
    have hc : ((e.getOrInit Components.Reactions).1.asList).contains
        (Reactions.encode r a) = false := by
      simpa [Reactions.listOn] using hm
    constructor
    · simp only [Reactions.add, hval, Bool.false_eq_true, if_false, hc]
    · simp only [Reactions.add, hval, Bool.false_eq_true, if_false, hc]
      rw [hxl, hx]
      simp only [ComponentValue.listPush, Reactions.listOn, getOrInit_setComp]
      rfl

/-- C4 witness: a concrete run — two identical `add` calls starting from the
empty list leave at most one occurrence of the encoded entry. -/
theorem reactions_add_unique_append_check :
    (Reactions.applyAdds [] [("up", "did:a"), ("up", "did:a")]).count "up did:a" ≤ 1 :=
  (reactions_add_unique_append freshEntity "up" "did:a" []
      [("up", "did:a"), ("up", "did:a")] (by decide) (by decide) ⟨[], rfl⟩
      ⟨List.nodup_nil, by simp⟩).2.2.2 "up did:a"
